import Mathlib

/-!
Verification of the WordPress auto-publishing scripts (`app.py`, `post.py`).

The Python functions are shallowly embedded over `List Char` (a Python `str`
is a sequence of Unicode code points, so `List Char` slicing/indexing matches
Python slicing/indexing exactly).  Modelling conventions, noted again at the
definitions they concern:

* The regex character class `\s` (and `str.strip()`) is modelled by
  `isSpaceChar`, covering the ASCII whitespace characters plus the common
  Unicode space code points recognised by Python.
* The regex class `\d` is modelled by the ASCII digits, and `\w` by ASCII
  alphanumerics plus underscore; the Hangul syllable range `가-힣` that the
  source spells out explicitly is modelled by `isHangulSyl`.  Inputs of this
  repository are Korean + ASCII text, for which these sets agree with Python.
* `str.lower()` is modelled by ASCII lowercasing (`lowerChar`); Hangul has no
  case, so this agrees with Python on the repository's inputs.
* Several scanners that consume more than one character per step are written
  with an explicit fuel argument equal to the input length, which keeps them
  structurally recursive (hence kernel-evaluable); each recursive step
  consumes at least one input character, so the fuel never runs out.
* The remote WordPress/Rank Math endpoints are modelled as an oracle
  (`Remote`) holding the responses the server would give, and the publish
  handler returns, besides its outcome, the ordered trace of HTTP calls it
  issued.
-/

set_option linter.unusedVariables false
set_option maxRecDepth 16000

/-- `String.toList` shorthand: Python strings are modelled as `List Char`. -/
def toL (s : String) : List Char := s.toList

/-- Python `\s` / `str.strip()` whitespace, as matched on this repository's
inputs: ASCII whitespace plus the common Unicode space code points. -/
def isSpaceChar (c : Char) : Bool :=
  c = ' ' || c = '\t' || c = '\n' || c = '\r' || c = '\x0b' || c = '\x0c' ||
  c = '\u0085' || c = '\u00A0' || c = '\u1680' ||
  ('\u2000' ≤ c && c ≤ '\u200A') ||
  c = '\u2028' || c = '\u2029' || c = '\u202F' || c = '\u205F' || c = '\u3000'

/-- Python `\d`, modelled as the ASCII digits. -/
def isDigitChar (c : Char) : Bool := '0' ≤ c && c ≤ '9'

/-- Python `\w`, modelled as ASCII alphanumerics plus underscore (the Hangul
range the source regex lists separately is `isHangulSyl`). -/
def isWordChar (c : Char) : Bool :=
  ('a' ≤ c && c ≤ 'z') || ('A' ≤ c && c ≤ 'Z') || isDigitChar c || c = '_'

/-- The Hangul syllable range `가-힣` spelled out in the source regexes. -/
def isHangulSyl (c : Char) : Bool := '가' ≤ c && c ≤ '힣'

/-- The punctuation class `[|,\-~:?!]` removed by `extract_focus_keyword`. -/
def isPunctK (c : Char) : Bool :=
  c = '|' || c = ',' || c = '-' || c = '~' || c = ':' || c = '?' || c = '!'

/-- Python `str.lower()` restricted to ASCII (Hangul has no case). -/
def lowerChar (c : Char) : Char :=
  if h : 65 ≤ c.toNat ∧ c.toNat ≤ 90 then
    Char.ofNatAux (c.toNat + 32) (Or.inl (by omega))
  else c

/-- `str.strip()`: drop `isSpaceChar` characters from both ends. -/
def stripList (s : List Char) : List Char :=
  ((s.dropWhile isSpaceChar).reverse.dropWhile isSpaceChar).reverse

/-- Worker for `re.sub(r"\s+", t, s)`: replace every maximal whitespace run
by the single character `t`.  The boolean records whether the previous
character was part of a whitespace run. -/
def collapseAux (t : Char) : Bool → List Char → List Char
  | _, [] => []
  | prevWs, c :: rest =>
    if isSpaceChar c then
      if prevWs then collapseAux t true rest
      else t :: collapseAux t true rest
    else c :: collapseAux t false rest

/-- Python substring test `pat in hay` (contiguous substring). -/
def hasSubstring (hay pat : List Char) : Bool :=
  match hay with
  | [] => pat.isPrefixOf ([] : List Char)
  | _ :: rest => pat.isPrefixOf hay || hasSubstring rest pat

/-- Case-insensitive containment `pat.lower() in hay.lower()`. -/
def containsCI (hay pat : List Char) : Bool :=
  hasSubstring (hay.map lowerChar) (pat.map lowerChar)

/-- Index of the first occurrence of `pat` in `s` (`str.find`); for an empty
pattern this is `some 0`, as in Python. -/
def firstIdx (pat : List Char) : List Char → Option Nat
  | [] => if pat.isPrefixOf ([] : List Char) then some 0 else none
  | c :: rest =>
    if pat.isPrefixOf (c :: rest) then some 0
    else (firstIdx pat rest).map (· + 1)

/-- Python `s.replace(pat, repl, 1)`: replace the first occurrence only
(for an empty `pat` this prepends `repl`, as in Python). -/
def replaceFirst (s pat repl : List Char) : List Char :=
  match firstIdx pat s with
  | none => s
  | some k => s.take k ++ repl ++ s.drop (k + pat.length)

/-- Worker for Python `s.replace(pat, "")` (all occurrences, left to right).
The fuel starts at `s.length`; every recursive step consumes at least one
character of `s` (a removal consumes `pat.length ≥ 1` of them), so the
zero-fuel branch is never reached on the initial call. -/
def replaceAllAux (pat : List Char) : Nat → List Char → List Char
  | 0, s => s
  | _ + 1, [] => []
  | fuel + 1, c :: rest =>
    if pat ≠ [] ∧ pat.isPrefixOf (c :: rest) then
      replaceAllAux pat fuel ((c :: rest).drop pat.length)
    else c :: replaceAllAux pat fuel rest

/-- Python `s.replace(pat, "")` for the nonempty patterns used by the source. -/
def replaceAll (pat s : List Char) : List Char := replaceAllAux pat s.length s

/-! ### Text utilities from `post.py` / `app.py` (identical in both files) -/

/-- Worker for `re.sub(r"<[^>]+>", "", html)`: at a `<`, the greedy `[^>]+`
must reach a real `>` with at least one character in between, otherwise the
regex fails at this position and the scan advances one character (as the
Python matcher does).  Fuel as described in the header. -/
def removeTagsAux : Nat → List Char → List Char
  | 0, s => s
  | _ + 1, [] => []
  | fuel + 1, c :: rest =>
    if c = '<' ∧ rest.takeWhile (fun x => x != '>') ≠ [] ∧
        (rest.dropWhile (fun x => x != '>')).head? = some '>' then
      removeTagsAux fuel (rest.dropWhile (fun x => x != '>')).tail
    else c :: removeTagsAux fuel rest

/-- `re.sub(r"<[^>]+>", "", html)`. -/
def removeTags (s : List Char) : List Char := removeTagsAux s.length s

/-- `strip_html(html) = re.sub(r"<[^>]+>", "", html).strip()`. -/
def strip_html (html : List Char) : List Char := stripList (removeTags html)

/-- The character class kept by `make_slug`'s `re.sub(r"[^\w\s가-힣-]", "", ·)`. -/
def slugKeep (c : Char) : Bool :=
  isWordChar c || isSpaceChar c || isHangulSyl c || c = '-'

/-- `make_slug(text)`: lowercase, strip, drop characters outside
`[\w\s가-힣-]`, then collapse whitespace runs to single hyphens. -/
def make_slug (text : List Char) : List Char :=
  collapseAux '-' false (List.filter slugKeep (stripList (text.map lowerChar)))

/-- Worker for `re.sub(r"\d+\s*가지", "", s)`: at a digit, take the maximal
digit run, then the maximal whitespace run, and require the literal `가지`;
on failure the scan advances one character (no regex backtracking can help,
since a shorter digit or space run would be followed by a digit or a space,
not by `가`).  Fuel as described in the header. -/
def removeDigitGajiAux : Nat → List Char → List Char
  | 0, s => s
  | _ + 1, [] => []
  | fuel + 1, c :: rest =>
    if isDigitChar c then
      let after := (rest.dropWhile isDigitChar).dropWhile isSpaceChar
      if after.take 2 = ['가', '지'] then removeDigitGajiAux fuel (after.drop 2)
      else c :: removeDigitGajiAux fuel rest
    else c :: removeDigitGajiAux fuel rest

/-- `re.sub(r"\d+\s*가지", "", s)` — the "N가지" filler removal. -/
def removeDigitGaji (s : List Char) : List Char := removeDigitGajiAux s.length s

/-- The ordered filler-fragment list of `extract_focus_keyword`
(`remove_patterns` in the source, same list in both files). -/
def removePatterns : List (List Char) :=
  [toL "에 대해 잘못 알려진", toL "에 대해 알려진", toL "에 대해 알아야 할",
   toL "꼭 알아야 할", toL "알아야 할", toL "꼭 알아야할", toL "반드시 알아야 할",
   toL "에 대해", toL "에 대한", toL "에서의", toL "에서", toL "으로의", toL "으로",
   toL "를 위한", toL "을 위한",
   toL "하는 방법", toL "하는 법", toL "하는법", toL "알아보기", toL "알아보자",
   toL "상식", toL "방법", toL "효과", toL "원인", toL "증상", toL "종류",
   toL "차이", toL "차이점",
   toL "비교", toL "추천", toL "정리", toL "총정리", toL "리뷰", toL "후기",
   toL "장점", toL "단점", toL "장단점", toL "주의사항", toL "부작용", toL "특징",
   toL "가이드", toL "완벽 가이드", toL "핵심 정리",
   toL "진실", toL "오해", toL "팩트", toL "팩트체크", toL "궁금증",
   toL "잘못 알려진", toL "잘못알려진", toL "최신", toL "최고의", toL "효과적인",
   toL "올바른", toL "정확한", toL "꼭 필요한", toL "반드시", toL "꼭"]

/-- The cleanup pipeline of `extract_focus_keyword` before its emptiness
fallback: digit+`가지` removal, sequential fragment removal, punctuation
removal, whitespace collapsing, strip. -/
def cleanupKeyword (title : List Char) : List Char :=
  stripList (collapseAux ' ' false
    (List.filter (fun c => !(isPunctK c))
      (removePatterns.foldl (fun acc p => replaceAll p acc)
        (removeDigitGaji title))))

/-- `extract_focus_keyword(title)`: the cleanup pipeline, falling back to the
original title when the result is empty (`keyword if keyword else title`). -/
def extract_focus_keyword (title : List Char) : List Char :=
  if cleanupKeyword title = [] then title else cleanupKeyword title

/-- `wrap_wp_html_block(html)`. -/
def wrap_wp_html_block (html_content : List Char) : List Char :=
  toL "<!-- wp:html -->\n" ++ html_content ++ toL "\n<!-- /wp:html -->"

/-- The fixed Instagram profile URL (`AUTHOR_INSTAGRAM` environment default /
`config["author_instagram"]`). -/
def authorInstagram : List Char := toL "https://www.instagram.com/medi_eungsuk/"

/-- The link paragraph appended for the primary author (author id 4). -/
def instaLinkHtml : List Char :=
  toL "<p>더 많은 건강 정보는 <a href=\"" ++ authorInstagram ++
  toL "\" target=\"_blank\">응석 김 인스타그램</a>에서 확인하세요.</p>"

/-- The link paragraph appended for other authors with a custom link. -/
def customLinkHtml (link : List Char) : List Char :=
  toL "<p>더 많은 정보는 <a href=\"" ++ link ++ toL "\" target=\"_blank\">" ++
  link ++ toL "</a>에서 확인하세요.</p>"

/-- `inject_external_link(html_content, author_id, custom_link)` (`app.py`):
author id 4 gets the Instagram paragraph unless the URL is empty or an
Instagram link is already present; other authors get `custom_link` if any. -/
def inject_external_link (html_content : List Char) (author_id : Int)
    (custom_link : List Char) : List Char :=
  if author_id = 4 then
    if authorInstagram = [] ∨ hasSubstring html_content (toL "instagram.com") then
      html_content
    else html_content ++ toL "\n" ++ instaLinkHtml
  else
    if custom_link = [] then html_content
    else html_content ++ toL "\n" ++ customLinkHtml custom_link

/-- `inject_internal_link(html_content, internal_link)` (`app.py`). -/
def inject_internal_link (html_content internal_link : List Char) : List Char :=
  if internal_link = [] then html_content
  else
    html_content ++ toL "\n" ++
    (toL "<p>또 보면 좋은 글: <a href=\"" ++ internal_link ++ toL "\">" ++
     internal_link ++ toL "</a></p>")

/-- `ensure_focus_keyword_in_content(html_content, focus_keyword)`: if the
tag-stripped first 500 characters miss the keyword (case-insensitively),
prepend a one-sentence introduction paragraph containing it. -/
def ensure_focus_keyword_in_content (html_content focus_keyword : List Char) :
    List Char :=
  if containsCI (strip_html (html_content.take 500)) focus_keyword then
    html_content
  else
    toL "<p>" ++ focus_keyword ++ toL "에 대해 알아보겠습니다.</p>\n" ++ html_content

/-! ### The h2/h3 regex scanners used by `ensure_focus_keyword_in_subheading`
and the closing-tag scanner of `inject_focus_keyword_image`. -/

/-- Anchored match of `<h[23][^>]*>` (IGNORECASE): returns the matched
opening tag and the remainder.  The greedy `[^>]*` must reach a `>`. -/
def matchOpenH23 : List Char → Option (List Char × List Char)
  | '<' :: c :: d :: rest =>
    if (c == 'h' || c == 'H') && (d == '2' || d == '3') then
      match rest.dropWhile (fun x => x != '>') with
      | '>' :: tail =>
        some ('<' :: c :: d :: (rest.takeWhile (fun x => x != '>') ++ ['>']), tail)
      | _ => none
    else none
  | _ => none

/-- Does `s` start with a closing tag `</h[23]>` (IGNORECASE)? -/
def isCloseH23 : List Char → Bool
  | '<' :: '/' :: c :: d :: '>' :: _ =>
    (c == 'h' || c == 'H') && (d == '2' || d == '3')
  | _ => false

/-- Split at the first `</h[23]>` (the lazy `(.*?)` of the heading regex):
returns the inner text and the remainder after the 5-character closing tag. -/
def splitAtClose23 : List Char → Option (List Char × List Char)
  | [] => none
  | c :: rest =>
    if isCloseH23 (c :: rest) then some ([], (c :: rest).drop 5)
    else
      match splitAtClose23 rest with
      | some (inner, after) => some (c :: inner, after)
      | none => none

/-- Worker for `re.findall(r"<h[23][^>]*>(.*?)</h[23]>", html, I|S)`: scan
left to right; a full match contributes its inner group and the scan resumes
after the match; an opening tag with no closing tag anywhere fails and the
scan advances one character.  Fuel as described in the header. -/
def findSubheadingsAux : Nat → List Char → List (List Char)
  | 0, _ => []
  | _ + 1, [] => []
  | fuel + 1, c :: rest =>
    match matchOpenH23 (c :: rest) with
    | some (_, tail) =>
      match splitAtClose23 tail with
      | some (inner, after) => inner :: findSubheadingsAux fuel after
      | none => findSubheadingsAux fuel rest
    | none => findSubheadingsAux fuel rest

/-- All inner texts of `<h[23]...>...</h[23]>` elements, in document order. -/
def findSubheadings (s : List Char) : List (List Char) :=
  findSubheadingsAux s.length s

/-- Anchored match of `<h2[^>]*>` (IGNORECASE). -/
def matchOpenH2 : List Char → Option (List Char × List Char)
  | '<' :: c :: '2' :: rest =>
    if c == 'h' || c == 'H' then
      match rest.dropWhile (fun x => x != '>') with
      | '>' :: tail =>
        some ('<' :: c :: '2' :: (rest.takeWhile (fun x => x != '>') ++ ['>']), tail)
      | _ => none
    else none
  | _ => none

/-- Does `s` start with `</h2>` (IGNORECASE)? -/
def isCloseH2 : List Char → Bool
  | '<' :: '/' :: c :: '2' :: '>' :: _ => c == 'h' || c == 'H'
  | _ => false

/-- Split at the first `</h2>`: inner text, the closing tag as written
(case preserved), and the remainder. -/
def splitAtCloseH2 : List Char → Option (List Char × List Char × List Char)
  | [] => none
  | c :: rest =>
    if isCloseH2 (c :: rest) then
      some ([], (c :: rest).take 5, (c :: rest).drop 5)
    else
      match splitAtCloseH2 rest with
      | some (inner, cls, post) => some (c :: inner, cls, post)
      | none => none

/-- First match of `re.subn(r"<h2[^>]*>(.*?)</h2>", ·, html, count=1, I|S)`:
`some (pre, open, inner, close, post)` decomposes `html` as
`pre ++ open ++ inner ++ close ++ post` at the leftmost full match. -/
def firstH2 : List Char →
    Option (List Char × List Char × List Char × List Char × List Char)
  | [] => none
  | c :: rest =>
    match matchOpenH2 (c :: rest) with
    | some (opn, tail) =>
      match splitAtCloseH2 tail with
      | some (inner, cls, post) => some ([], opn, inner, cls, post)
      | none => (firstH2 rest).map (fun r => (c :: r.1, r.2))
    | none => (firstH2 rest).map (fun r => (c :: r.1, r.2))

/-- `ensure_focus_keyword_in_subheading(html_content, focus_keyword)`: no-op
when some h2/h3 inner text already contains the keyword (case-insensitively,
after tag stripping); otherwise the replacement callback rewrites the first
h2 match, replacing the first occurrence of its inner text inside the match
by `"{keyword} - {inner}"` (Python `tag.replace(inner, ..., 1)`). -/
def ensure_focus_keyword_in_subheading (html_content focus_keyword : List Char) :
    List Char :=
  if (findSubheadings html_content).any
      (fun sh => containsCI (strip_html sh) focus_keyword) then
    html_content
  else
    match firstH2 html_content with
    | none => html_content
    | some (pre, opn, inner, cls, post) =>
      pre ++
        replaceFirst (opn ++ inner ++ cls) inner
          (focus_keyword ++ toL " - " ++ inner) ++ post

/-- Split after the first closing tag `(</[^>]+>)` (`re.search`), returning
the document up to and including the tag, and the remainder. -/
def splitAfterFirstCloseTag : List Char → Option (List Char × List Char)
  | [] => none
  | c :: rest =>
    if c = '<' ∧ rest.head? = some '/' ∧
        rest.tail.takeWhile (fun x => x != '>') ≠ [] ∧
        (rest.tail.dropWhile (fun x => x != '>')).head? = some '>' then
      some ('<' :: '/' :: (rest.tail.takeWhile (fun x => x != '>') ++ ['>']),
        (rest.tail.dropWhile (fun x => x != '>')).tail)
    else
      match splitAfterFirstCloseTag rest with
      | some (pre, post) => some (c :: pre, post)
      | none => none

/-- `inject_focus_keyword_image(html_content, focus_keyword, image_url)`:
insert the keyword-alt image right after the first closing tag, or prepend
it when no closing tag exists. -/
def inject_focus_keyword_image (html_content focus_keyword image_url : List Char) :
    List Char :=
  let img := toL "<img src=\"" ++ image_url ++ toL "\" alt=\"" ++ focus_keyword ++
    toL "\" style=\"width:100%; height:auto;\" />"
  match splitAfterFirstCloseTag html_content with
  | some (pre, post) => pre ++ toL "\n" ++ img ++ toL "\n" ++ post
  | none => img ++ toL "\n" ++ html_content

/-! ### SEO field assembly (`build_seo_fields`, `post.py` lines 177-221;
the `app.py` variant is the special case of an empty override). -/

/-- The optional `meta.json` override.  `focus_keyword`, `seo_title` and
`description` use Python truthiness (`""` means absent, matching
`meta.get(k, "")`); `slug` uses `meta.get("slug", default)`, so an explicit
empty slug is distinct from an absent one. -/
structure MetaOverride where
  focus_keyword : List Char
  seo_title : List Char
  description : List Char
  slug : Option (List Char)
  tags : List (List Char)
deriving Repr, DecidableEq

/-- The absent override (also the shape of the `app.py` variant, which has
no `meta.json`). -/
def emptyMeta : MetaOverride :=
  { focus_keyword := [], seo_title := [], description := [], slug := none,
    tags := [] }

/-- The result record of `build_seo_fields`. -/
structure SeoFields where
  focus_keyword : List Char
  description : List Char
  seo_title : List Char
  slug : List Char
  tags : List (List Char)
deriving Repr, DecidableEq

/-- The focus keyword: override wins, else `extract_focus_keyword(title)`. -/
def seoFocusKeyword (title : List Char) (meta : MetaOverride) : List Char :=
  if meta.focus_keyword = [] then extract_focus_keyword title
  else meta.focus_keyword

/-- `desc_text[:140].rfind(".")`, as an `Option` (Python returns `-1` when
absent; the caller only compares the result against `50`). -/
def rfindDot (s : List Char) : Option Nat :=
  match s.reverse.findIdx? (fun c => c == '.') with
  | none => none
  | some k => some (s.length - 1 - k)

/-- The description before the final 155-character cap: the override if any,
else the first 300 tag-stripped characters with newlines collapsed, cut at
the last period of the first 140 characters when that sits past position 50
(else hard-cut at 140), with the keyword prepended when missing. -/
def assembleDescription (kw plain metaDesc : List Char) : List Char :=
  if metaDesc ≠ [] then metaDesc
  else
    let desc_text :=
      stripList ((plain.take 300).map (fun c => if c = '\n' then ' ' else c))
    let base :=
      match rfindDot (desc_text.take 140) with
      | some k => if 50 < k then desc_text.take (k + 1) else desc_text.take 140
      | none => desc_text.take 140
    if containsCI base kw then base else kw ++ toL " - " ++ base

/-- The final `if len(description) > 155: description[:152] + "..."` cap. -/
def capDescription (d : List Char) : List Char :=
  if 155 < d.length then d.take 152 ++ toL "..." else d

/-- The SEO title: override wins; else `"{title} - {site}"` when the keyword
already appears in the title (case-insensitively), else
`"{title} | {keyword} - {site}"`. -/
def seoTitleField (siteName title : List Char) (meta : MetaOverride) : List Char :=
  if meta.seo_title ≠ [] then meta.seo_title
  else if containsCI title (seoFocusKeyword title meta) then
    title ++ toL " - " ++ siteName
  else
    title ++ toL " | " ++ seoFocusKeyword title meta ++ toL " - " ++ siteName

/-- `build_seo_fields(title, html_content, meta)` (`post.py`), with the site
name passed explicitly (the source reads it from global configuration). -/
def build_seo_fields (siteName title html_content : List Char)
    (meta : MetaOverride) : SeoFields :=
  { focus_keyword := seoFocusKeyword title meta
    description :=
      capDescription
        (assembleDescription (seoFocusKeyword title meta)
          (strip_html html_content) meta.description)
    seo_title := seoTitleField siteName title meta
    slug :=
      match meta.slug with
      | some s => s
      | none => make_slug (seoFocusKeyword title meta)
    tags := meta.tags }

/-! ### The publish flow of `app.py`'s `/api/publish` handler, after input
validation.  Remote endpoints are an oracle of responses; the model returns
the outcome together with the ordered trace of remote calls issued. -/

/-- A media-upload response: HTTP status, the JSON `id`, and `source_url`. -/
structure MediaResp where
  status : Nat
  id : Int
  sourceUrl : List Char
deriving Repr, DecidableEq

/-- A post-creation response: HTTP status, the JSON `id`, and `link`. -/
structure PostResp where
  status : Nat
  id : Int
  link : List Char
deriving Repr, DecidableEq

/-- The oracle of remote responses for one publish request.  The Rank Math
meta/schema statuses and the re-save status are recorded so that claims can
quantify over them; `app.py` never inspects those three responses. -/
structure Remote where
  media : MediaResp
  post : PostResp
  metaStatus : Nat
  schemaStatus : Nat
  resaveStatus : Nat
deriving Repr, DecidableEq

/-- One remote call of the publish flow, in issue order. -/
inductive CallTag where
  | mediaUpload
  | altUpdate
  | postCreate
  | metaPush
  | schemaPush
  | resave
deriving Repr, DecidableEq

/-- The terminal result of the handler: the success JSON (post id and URL),
the upload failure 500, or the post-creation failure 500. -/
inductive PublishOutcome where
  | ok (postId : Int) (url : List Char)
  | uploadFailed
  | postFailed (status : Nat)
deriving Repr, DecidableEq

/-- `upload_image(path, alt_text)`: a non-`200/201` status yields the
sentinel `(-1, "")` before the alt-text call; on success the alt-text
best-effort call is issued when `alt_text` is nonempty. -/
def upload_image (resp : MediaResp) (alt_text : List Char) :
    (Int × List Char) × List CallTag :=
  if resp.status = 200 ∨ resp.status = 201 then
    ((resp.id, resp.sourceUrl),
      [CallTag.mediaUpload] ++ (if alt_text = [] then [] else [CallTag.altUpdate]))
  else ((-1, []), [CallTag.mediaUpload])

/-- `api_publish` (`app.py` lines 436-523, after validation): build the SEO
fields, upload the image (aborting on the `-1` sentinel), run the content
pipeline, create the post (aborting on a non-`200/201` status), then issue
the Rank Math meta, schema and re-save calls without inspecting their
responses, and return the success JSON. -/
def api_publish (siteName title html_in : List Char) (author_id category_id : Int)
    (external_link internal_link : List Char) (remote : Remote) :
    PublishOutcome × List CallTag :=
  let seo := build_seo_fields siteName title html_in emptyMeta
  let focus_keyword := seo.focus_keyword
  let up := upload_image remote.media focus_keyword
  if (up.1).1 = -1 then (PublishOutcome.uploadFailed, up.2)
  else
    let c1 := ensure_focus_keyword_in_content html_in focus_keyword
    let c2 := ensure_focus_keyword_in_subheading c1 focus_keyword
    let c3 :=
      if (up.1).2 = [] then c2
      else inject_focus_keyword_image c2 focus_keyword (up.1).2
    let c4 := inject_internal_link c3 internal_link
    let c5 := inject_external_link c4 author_id external_link
    let wp_content := wrap_wp_html_block c5
    if remote.post.status = 200 ∨ remote.post.status = 201 then
      (PublishOutcome.ok remote.post.id remote.post.link,
        up.2 ++ [CallTag.postCreate, CallTag.metaPush, CallTag.schemaPush,
          CallTag.resave])
    else (PublishOutcome.postFailed remote.post.status, up.2 ++ [CallTag.postCreate])

/-! ### Concrete remote oracles and overrides used by witnesses and
counterexamples -/

/-- The oracle of the C1 witness: post creation succeeds with id 123 while
the Rank Math meta push (and the other best-effort calls) answer HTTP 500. -/
def remoteMeta500 : Remote :=
  { media := { status := 201, id := 5, sourceUrl := toL "http://img" }
    post := { status := 201, id := 123, link := toL "http://post" }
    metaStatus := 500, schemaStatus := 500, resaveStatus := 500 }

/-- Counterexample to C1 as stated: HTTP 202 is a 2xx status, but the code
only accepts 200/201, so a 202 response from the posts endpoint (with a
valid post id 123 in its body) makes the publish fail instead of succeed. -/
def remote202 : Remote :=
  { media := { status := 201, id := 5, sourceUrl := toL "http://img" }
    post := { status := 202, id := 123, link := toL "http://post" }
    metaStatus := 200, schemaStatus := 200, resaveStatus := 200 }

/-- The oracle of the C2 witness: the media endpoint answers HTTP 500. -/
def remoteUpload500 : Remote :=
  { media := { status := 500, id := 0, sourceUrl := [] }
    post := { status := 201, id := 123, link := toL "http://post" }
    metaStatus := 200, schemaStatus := 200, resaveStatus := 200 }

/-- The override of the C3 witness: a 200-character description. -/
def metaLongDesc : MetaOverride :=
  { emptyMeta with description := List.replicate 200 'x' }

/-! ### Auxiliary predicates used by the claims -/

/-- Does the string start with a whitespace character? -/
def startsWithWs : List Char → Bool
  | [] => false
  | c :: _ => isSpaceChar c

/-- The normal form produced by `collapseAux ' ' false`: every whitespace
character is a single space not followed by another whitespace character. -/
def normOk : List Char → Prop
  | [] => True
  | c :: rest =>
    (isSpaceChar c = true → c = ' ' ∧ startsWithWs rest = false) ∧ normOk rest

/-- "Free of filler patterns": the `\d+\s*가지` removal is the identity (no
occurrence) and no fragment of the ordered removal list occurs in the
string. -/
def fillerFree (s : List Char) : Prop :=
  removeDigitGaji s = s ∧ ∀ p ∈ removePatterns, hasSubstring s p = false

instance (s : List Char) : Decidable (fillerFree s) :=
  inferInstanceAs
    (Decidable (removeDigitGaji s = s ∧ ∀ p ∈ removePatterns, hasSubstring s p = false))

/-! ### Generic lemmas about the string primitives -/

theorem isPrefixOf_eq_true_iff :
    ∀ pat hay : List Char, pat.isPrefixOf hay = true ↔ ∃ t, pat ++ t = hay
  | [], hay => by simp [List.isPrefixOf]
  | p :: ps, [] => by simp [List.isPrefixOf]
  | p :: ps, h :: hs => by
    simp only [List.isPrefixOf, Bool.and_eq_true, beq_iff_eq,
      isPrefixOf_eq_true_iff ps hs]
    constructor
    · rintro ⟨rfl, t, rfl⟩
      exact ⟨t, rfl⟩
    · rintro ⟨t, ht⟩
      cases ht
      exact ⟨rfl, t, rfl⟩

theorem hasSubstring_iff :
    ∀ hay pat : List Char, hasSubstring hay pat = true ↔ ∃ a b, a ++ pat ++ b = hay
  | [], pat => by
    simp only [hasSubstring, isPrefixOf_eq_true_iff]
    constructor
    · rintro ⟨t, ht⟩
      exact ⟨[], t, by simpa using ht⟩
    · rintro ⟨a, b, h⟩
      rcases List.append_eq_nil.mp h with ⟨hab, rfl⟩
      rcases List.append_eq_nil.mp hab with ⟨rfl, rfl⟩
      exact ⟨[], rfl⟩
  | c :: rest, pat => by
    simp only [hasSubstring, Bool.or_eq_true, isPrefixOf_eq_true_iff,
      hasSubstring_iff rest pat]
    constructor
    · rintro (⟨t, ht⟩ | ⟨a, b, h⟩)
      · exact ⟨[], t, by simpa using ht⟩
      · exact ⟨c :: a, b, by simp [← h]⟩
    · rintro ⟨a, b, h⟩
      cases a with
      | nil => exact Or.inl ⟨b, by simpa using h⟩
      | cons a0 as =>
        simp only [List.cons_append, List.cons.injEq] at h
        exact Or.inr ⟨as, b, h.2⟩

theorem hasSubstring_append_right {a b pat : List Char}
    (h : hasSubstring b pat = true) : hasSubstring (a ++ b) pat = true := by
  rcases (hasSubstring_iff b pat).mp h with ⟨x, y, hxy⟩
  exact (hasSubstring_iff (a ++ b) pat).mpr ⟨a ++ x, y, by simp [← hxy]⟩

theorem hasSubstring_eq_false_of_cons {c : Char} {rest pat : List Char}
    (h : hasSubstring (c :: rest) pat = false) :
    pat.isPrefixOf (c :: rest) = false ∧ hasSubstring rest pat = false := by
  have h' := h
  simp only [hasSubstring, Bool.or_eq_false_iff] at h'
  exact h'

/-! ### C9/C10: the focus-keyword extractor -/

/-- C9: the spec scenario: the title `"6가지 계란에 대해 잘못 알려진 상식"`
extracts the focus keyword `"계란"` (`N가지` removed, filler fragments
removed, whitespace collapsed and trimmed). -/
theorem extract_focus_keyword_scenario :
    extract_focus_keyword (toL "6가지 계란에 대해 잘못 알려진 상식") = toL "계란" := by
  decide

/-- C10: for a non-empty title the extractor never returns the empty string:
when the cleanup pipeline empties the working string, the original title is
returned as the fallback. -/
theorem extract_focus_keyword_nonempty (title : List Char) (h : title ≠ []) :
    extract_focus_keyword title ≠ [] ∧
    (cleanupKeyword title = [] → extract_focus_keyword title = title) := by
  unfold extract_focus_keyword
  by_cases hk : cleanupKeyword title = []
  · simp [hk, h]
  · simp [hk]

/-- Witness for C10 at the concrete title `"상식"` (whose cleanup is empty,
exercising the fallback). -/
theorem extract_focus_keyword_nonempty_witness :
    extract_focus_keyword (toL "상식") ≠ [] ∧
    (cleanupKeyword (toL "상식") = [] → extract_focus_keyword (toL "상식") = toL "상식") :=
  extract_focus_keyword_nonempty (toL "상식") (by decide)

/-! ### C1/C2: the publish orchestration -/

/-- C1 (amended): once the flow reaches post creation (media upload answered
200/201 with a non-sentinel id) and the posts endpoint answers 200 or 201 —
the statuses the code treats as success — the final result is success
carrying that post id and URL, for every outcome of the subsequent Rank Math
updateMeta, updateSchemas and re-save calls (their statuses are arbitrary
fields of `remote` and are never inspected). -/
theorem api_publish_meta_independent (siteName title html_in : List Char)
    (author_id category_id : Int) (external_link internal_link : List Char)
    (remote : Remote)
    (hm : remote.media.status = 200 ∨ remote.media.status = 201)
    (hid : remote.media.id ≠ -1)
    (hp : remote.post.status = 200 ∨ remote.post.status = 201) :
    (api_publish siteName title html_in author_id category_id external_link
        internal_link remote).1 =
      PublishOutcome.ok remote.post.id remote.post.link := by
  rcases hm with hm | hm <;> rcases hp with hp | hp <;>
    simp [api_publish, upload_image, hm, hp, hid]

/-- Witness for C1: with `remoteMeta500` (meta push answering HTTP 500) the
result is still success with post id 123. -/
theorem api_publish_meta_independent_witness :
    (api_publish (toL "메디셜 공식 블로그") (toL "계란 상식") (toL "<p>x</p>") 4 22 [] []
        remoteMeta500).1 =
      PublishOutcome.ok 123 (toL "http://post") :=
  api_publish_meta_independent _ _ _ _ _ _ _ remoteMeta500 (Or.inr rfl)
    (by decide) (Or.inr rfl)

/-- Counterexample for C1: a 2xx (202) post-creation response with post id
123 terminates in `postFailed`, not in success carrying id 123. -/
theorem api_publish_2xx_claim_cx :
    (200 ≤ 202 ∧ 202 < 300) ∧
    (api_publish (toL "메디셜 공식 블로그") (toL "계란 상식") (toL "<p>x</p>") 4 22 [] []
        remote202).1 = PublishOutcome.postFailed 202 ∧
    PublishOutcome.postFailed 202 ≠
      PublishOutcome.ok 123 (toL "http://post") := by
  refine ⟨by decide, ?_, by decide⟩
  decide

/-- C2: a non-2xx media-upload response makes `upload_image` return the
sentinel `(-1, "")`, and the publish flow terminates in the upload-failure
result without ever issuing the post-creation request. -/
theorem upload_failure_aborts (siteName title html_in : List Char)
    (author_id category_id : Int) (external_link internal_link : List Char)
    (remote : Remote)
    (h : ¬(200 ≤ remote.media.status ∧ remote.media.status < 300)) :
    (upload_image remote.media
        (build_seo_fields siteName title html_in emptyMeta).focus_keyword).1 =
      (-1, []) ∧
    (api_publish siteName title html_in author_id category_id external_link
        internal_link remote).1 = PublishOutcome.uploadFailed ∧
    CallTag.postCreate ∉
      (api_publish siteName title html_in author_id category_id external_link
        internal_link remote).2 := by
  have h200 : remote.media.status ≠ 200 := by omega
  have h201 : remote.media.status ≠ 201 := by omega
  refine ⟨?_, ?_, ?_⟩
  · simp [upload_image, h200, h201]
  · simp [api_publish, upload_image, h200, h201]
  · simp [api_publish, upload_image, h200, h201]

/-- Witness for C2 at the concrete oracle `remoteUpload500`. -/
theorem upload_failure_aborts_witness :
    (upload_image remoteUpload500.media
        (build_seo_fields (toL "메디셜 공식 블로그") (toL "계란 상식") (toL "<p>x</p>")
          emptyMeta).focus_keyword).1 = (-1, []) ∧
    (api_publish (toL "메디셜 공식 블로그") (toL "계란 상식") (toL "<p>x</p>") 4 22 [] []
        remoteUpload500).1 = PublishOutcome.uploadFailed ∧
    CallTag.postCreate ∉
      (api_publish (toL "메디셜 공식 블로그") (toL "계란 상식") (toL "<p>x</p>") 4 22 [] []
        remoteUpload500).2 :=
  upload_failure_aborts _ _ _ _ _ _ _ remoteUpload500 (by decide)

/-! ### C8: the external author-link injector -/

/-- C8: for the primary author (id 4), content without an Instagram-style
link gets exactly one link paragraph (referencing the fixed profile URL)
appended; re-running the injector on the augmented content is a no-op. -/
theorem inject_external_link_appends (html_content custom_link custom_link2 : List Char)
    (h : hasSubstring html_content (toL "instagram.com") = false) :
    inject_external_link html_content 4 custom_link =
      html_content ++ toL "\n" ++ instaLinkHtml ∧
    hasSubstring instaLinkHtml authorInstagram = true ∧
    inject_external_link (html_content ++ toL "\n" ++ instaLinkHtml) 4 custom_link2 =
      html_content ++ toL "\n" ++ instaLinkHtml := by
  refine ⟨?_, by decide, ?_⟩
  · unfold inject_external_link
    rw [if_pos rfl, if_neg]
    rintro (hempty | hsub)
    · exact absurd hempty (by decide)
    · rw [h] at hsub
      exact Bool.false_ne_true hsub
  · unfold inject_external_link
    rw [if_pos rfl, if_pos]
    refine Or.inr ?_
    rw [List.append_assoc]
    exact hasSubstring_append_right
      (hasSubstring_append_right (by decide))

/-- Witness for C8 at concrete content `"<p>글</p>"`. -/
theorem inject_external_link_appends_witness :
    inject_external_link (toL "<p>글</p>") 4 [] =
      toL "<p>글</p>" ++ toL "\n" ++ instaLinkHtml ∧
    hasSubstring instaLinkHtml authorInstagram = true ∧
    inject_external_link (toL "<p>글</p>" ++ toL "\n" ++ instaLinkHtml) 4
        (toL "http://other") =
      toL "<p>글</p>" ++ toL "\n" ++ instaLinkHtml :=
  inject_external_link_appends (toL "<p>글</p>") [] (toL "http://other") (by decide)

/-! ### C3: the meta-description length cap -/

/-- C3: for every title, html content and override, the description returned
by `build_seo_fields` has at most 155 characters, and whenever the assembled
(pre-cap) description exceeds 155 characters the returned description is its
first 152 characters followed by `"..."`. -/
theorem build_seo_description_capped (siteName title html_content : List Char)
    (meta : MetaOverride) :
    (build_seo_fields siteName title html_content meta).description.length ≤ 155 ∧
    (155 < (assembleDescription (seoFocusKeyword title meta)
        (strip_html html_content) meta.description).length →
      (build_seo_fields siteName title html_content meta).description =
        (assembleDescription (seoFocusKeyword title meta)
          (strip_html html_content) meta.description).take 152 ++ toL "...") := by
  have hdesc : (build_seo_fields siteName title html_content meta).description =
      capDescription (assembleDescription (seoFocusKeyword title meta)
        (strip_html html_content) meta.description) := rfl
  have hdots : (toL "...").length = 3 := rfl
  rw [hdesc]
  unfold capDescription
  by_cases h : 155 < (assembleDescription (seoFocusKeyword title meta)
      (strip_html html_content) meta.description).length
  · rw [if_pos h]
    refine ⟨?_, fun _ => rfl⟩
    rw [List.length_append, List.length_take, hdots]
    omega
  · rw [if_neg h]
    exact ⟨by omega, fun hc => absurd hc h⟩

/-- Witness for C3: a 200-character override description is returned as its
first 152 characters plus `"..."`, of total length 155. -/
theorem build_seo_description_capped_witness :
    (build_seo_fields (toL "s") (toL "계란") (toL "<p>x</p>")
        metaLongDesc).description.length ≤ 155 ∧
    (build_seo_fields (toL "s") (toL "계란") (toL "<p>x</p>")
        metaLongDesc).description = List.replicate 152 'x' ++ toL "..." := by
  have h := build_seo_description_capped (toL "s") (toL "계란") (toL "<p>x</p>")
    metaLongDesc
  refine ⟨h.1, (h.2 (by decide)).trans ?_⟩
  decide

/-! ### C5: keyword injection into the opening content -/

/-- C5 (amended): if the tag-stripped first 500 characters of the input lack
the keyword (case-insensitively) and the keyword has at most 497 characters
(so that, together with the 3-character `"<p>"` that precedes it, it fits
inside the first 500 characters), the first 500 characters of the result
contain the keyword. -/
theorem ensure_content_injects (html_content focus_keyword : List Char)
    (h1 : containsCI (strip_html (html_content.take 500)) focus_keyword = false)
    (h2 : focus_keyword.length ≤ 497) :
    hasSubstring
      ((ensure_focus_keyword_in_content html_content focus_keyword).take 500)
      focus_keyword = true := by
  simp only [ensure_focus_keyword_in_content, h1, Bool.false_eq_true, if_false]
  have h3 : (toL "<p>").length = 3 := rfl
  have hA : (toL "<p>" ++ focus_keyword).length ≤ 500 := by
    rw [List.length_append, h3]
    omega
  rw [List.append_assoc (toL "<p>" ++ focus_keyword),
    List.take_append_eq_append_take, List.take_of_length_le hA]
  exact (hasSubstring_iff _ _).mpr ⟨toL "<p>", _, rfl⟩

/-- Witness for C5 at content `"<p>hello</p>"` and keyword `"건강"`. -/
theorem ensure_content_injects_witness :
    hasSubstring
      ((ensure_focus_keyword_in_content (toL "<p>hello</p>") (toL "건강")).take 500)
      (toL "건강") = true :=
  ensure_content_injects (toL "<p>hello</p>") (toL "건강") (by decide) (by decide)

/-- Counterexample for C5 as stated: a 498-character keyword satisfies the
claim's hypothesis against the content `"b"`, but the first 500 characters
of the result are `"<p>"` followed by only 497 of its 498 characters, so
they do not contain the keyword. -/
theorem ensure_content_claim_cx :
    containsCI (strip_html ((toL "b").take 500)) (List.replicate 498 'a') = false ∧
    hasSubstring
      ((ensure_focus_keyword_in_content (toL "b") (List.replicate 498 'a')).take 500)
      (List.replicate 498 'a') = false := by
  constructor
  · decide
  · decide

/-! ### C4: keyword injection into the first h2 -/

/-- C4 (amended): (a) if the tag-stripped inner text of some h2/h3 element
already contains the keyword case-insensitively, the input is returned
unchanged; (b) otherwise, if a first h2 match `pre ++ opn ++ inner ++ cls ++
post` exists and the first occurrence of `inner` inside the matched element
is the inner text itself (which requires `inner` to be non-empty and not to
occur earlier in the opening tag), then exactly that h2 is modified by
prefixing its inner text with `"<keyword> - "` and the rest of the document
is unchanged; (c) if no h2 match exists the input is returned unchanged. -/
theorem ensure_subheading_cases (html_content focus_keyword : List Char) :
    ((findSubheadings html_content).any
        (fun sh => containsCI (strip_html sh) focus_keyword) = true →
      ensure_focus_keyword_in_subheading html_content focus_keyword =
        html_content) ∧
    ((findSubheadings html_content).any
        (fun sh => containsCI (strip_html sh) focus_keyword) = false →
      ∀ pre opn inner cls post,
        firstH2 html_content = some (pre, opn, inner, cls, post) →
        firstIdx inner (opn ++ inner ++ cls) = some opn.length →
        ensure_focus_keyword_in_subheading html_content focus_keyword =
          pre ++ opn ++ (focus_keyword ++ toL " - " ++ inner) ++ cls ++ post) ∧
    ((findSubheadings html_content).any
        (fun sh => containsCI (strip_html sh) focus_keyword) = false →
      firstH2 html_content = none →
      ensure_focus_keyword_in_subheading html_content focus_keyword =
        html_content) := by
  refine ⟨?_, ?_, ?_⟩
  · intro hany
    simp [ensure_focus_keyword_in_subheading, hany]
  · intro hany pre opn inner cls post hfirst hidx
    simp only [ensure_focus_keyword_in_subheading, hany, Bool.false_eq_true,
      if_false, hfirst, replaceFirst, hidx]
    rw [List.append_assoc opn inner cls, List.take_left, List.drop_append,
      List.drop_left]
    simp [List.append_assoc]
  · intro hany hnone
    simp [ensure_focus_keyword_in_subheading, hany, hnone]

/-- Witness for C4 (branch (b)) at `"<h2>Intro</h2><p>hi</p>"` with keyword
`"건강"`: the first h2's inner text is prefixed. -/
theorem ensure_subheading_cases_witness :
    ensure_focus_keyword_in_subheading (toL "<h2>Intro</h2><p>hi</p>") (toL "건강") =
      toL "<h2>건강 - Intro</h2><p>hi</p>" := by
  have h :=
    (ensure_subheading_cases (toL "<h2>Intro</h2><p>hi</p>") (toL "건강")).2.1
      (by decide) [] (toL "<h2>") (toL "Intro") (toL "</h2>") (toL "<p>hi</p>")
      (by decide) (by decide)
  exact h.trans (by decide)

/-- Counterexample for C4 as stated: on `"<h2></h2>"` (an h2 with empty
inner text, no subheading containing `"k"`), the Python replacement
`tag.replace("", "k - ", 1)` prepends *before* the element, yielding
`"k - <h2></h2>"` rather than the claimed `"<h2>k - </h2>"` whose first h2
inner text would have been prefixed. -/
theorem ensure_subheading_claim_cx :
    (findSubheadings (toL "<h2></h2>")).any
      (fun sh => containsCI (strip_html sh) (toL "k")) = false ∧
    firstH2 (toL "<h2></h2>") =
      some ([], toL "<h2>", [], toL "</h2>", []) ∧
    ensure_focus_keyword_in_subheading (toL "<h2></h2>") (toL "k") =
      toL "k - <h2></h2>" ∧
    ensure_focus_keyword_in_subheading (toL "<h2></h2>") (toL "k") ≠
      toL "<h2>k - </h2>" := by
  refine ⟨by decide, by decide, by decide, by decide⟩

/-! ### C7: slug well-formedness and idempotence -/

theorem lowerChar_toNat (c : Char) (h : 65 ≤ c.toNat ∧ c.toNat ≤ 90) :
    (lowerChar c).toNat = c.toNat + 32 := by
  unfold lowerChar
  rw [dif_pos h]
  rfl

theorem lowerChar_eq_self (c : Char) (h : ¬(65 ≤ c.toNat ∧ c.toNat ≤ 90)) :
    lowerChar c = c := by
  unfold lowerChar
  rw [dif_neg h]

theorem lowerChar_idem (c : Char) : lowerChar (lowerChar c) = lowerChar c := by
  by_cases h : 65 ≤ c.toNat ∧ c.toNat ≤ 90
  · apply lowerChar_eq_self
    rw [lowerChar_toNat c h]
    omega
  · rw [lowerChar_eq_self c h, lowerChar_eq_self c h]

theorem mem_collapseAux (t : Char) :
    ∀ (s : List Char) (b : Bool) (c : Char),
      c ∈ collapseAux t b s → c = t ∨ (c ∈ s ∧ isSpaceChar c = false)
  | [], b, c => by simp [collapseAux]
  | x :: rest, b, c => by
    intro hmem
    by_cases hx : isSpaceChar x = true
    · cases b with
      | true =>
        simp only [collapseAux, hx, if_true] at hmem
        rcases mem_collapseAux t rest true c hmem with h | ⟨h1, h2⟩
        · exact Or.inl h
        · exact Or.inr ⟨List.mem_cons_of_mem _ h1, h2⟩
      | false =>
        simp only [collapseAux, hx, if_true, Bool.false_eq_true, if_false] at hmem
        rcases List.mem_cons.mp hmem with rfl | hmem'
        · exact Or.inl rfl
        · rcases mem_collapseAux t rest true c hmem' with h | ⟨h1, h2⟩
          · exact Or.inl h
          · exact Or.inr ⟨List.mem_cons_of_mem _ h1, h2⟩
    · have hx' : isSpaceChar x = false := by simpa using hx
      simp only [collapseAux, hx', Bool.false_eq_true, if_false] at hmem
      rcases List.mem_cons.mp hmem with rfl | hmem'
      · exact Or.inr ⟨List.mem_cons_self _ _, hx'⟩
      · rcases mem_collapseAux t rest false c hmem' with h | ⟨h1, h2⟩
        · exact Or.inl h
        · exact Or.inr ⟨List.mem_cons_of_mem _ h1, h2⟩

theorem collapseAux_eq_self (t : Char) :
    ∀ (s : List Char) (b : Bool), (∀ c ∈ s, isSpaceChar c = false) →
      collapseAux t b s = s
  | [], _, _ => rfl
  | x :: rest, b, h => by
    have hx : isSpaceChar x = false := h x (List.mem_cons_self _ _)
    simp only [collapseAux, hx, Bool.false_eq_true, if_false]
    rw [collapseAux_eq_self t rest false (fun c hc => h c (List.mem_cons_of_mem _ hc))]

theorem mem_stripList {s : List Char} {c : Char} (h : c ∈ stripList s) : c ∈ s := by
  unfold stripList at h
  rw [List.mem_reverse] at h
  have h1 := (List.dropWhile_suffix isSpaceChar).sublist.subset h
  rw [List.mem_reverse] at h1
  exact (List.dropWhile_suffix isSpaceChar).sublist.subset h1

theorem dropWhile_eq_self_of_all {p : Char → Bool} :
    ∀ s : List Char, (∀ c ∈ s, p c = false) → s.dropWhile p = s
  | [], _ => rfl
  | x :: rest, h => by
    have hx : p x = false := h x (List.mem_cons_self _ _)
    simp [List.dropWhile_cons, hx]

theorem stripList_eq_self (s : List Char)
    (h : ∀ c ∈ s, isSpaceChar c = false) : stripList s = s := by
  unfold stripList
  rw [dropWhile_eq_self_of_all s h,
    dropWhile_eq_self_of_all s.reverse (fun c hc => h c (List.mem_reverse.mp hc)),
    List.reverse_reverse]

/-- C7: every character of `make_slug x` is a non-whitespace character of
the allowed set (word characters, Hangul syllables, hyphen), and `make_slug`
is idempotent. -/
theorem make_slug_wellformed_idem (x : List Char) :
    (∀ c ∈ make_slug x, isSpaceChar c = false ∧
      (isWordChar c = true ∨ isHangulSyl c = true ∨ c = '-')) ∧
    make_slug (make_slug x) = make_slug x := by
  have hchar : ∀ c ∈ make_slug x, isSpaceChar c = false ∧
      (isWordChar c = true ∨ isHangulSyl c = true ∨ c = '-') ∧ lowerChar c = c := by
    intro c hc
    unfold make_slug at hc
    rcases mem_collapseAux '-' _ false c hc with rfl | ⟨h1, h2⟩
    · exact ⟨by decide, Or.inr (Or.inr rfl), by decide⟩
    · rcases List.mem_filter.mp h1 with ⟨h3, h4⟩
      have hw : isWordChar c = true ∨ isHangulSyl c = true ∨ c = '-' := by
        simp only [slugKeep, Bool.or_eq_true, decide_eq_true_eq] at h4
        rcases h4 with ((hw | hs) | hh) | hd
        · exact Or.inl hw
        · rw [h2] at hs
          exact absurd hs (by decide)
        · exact Or.inr (Or.inl hh)
        · exact Or.inr (Or.inr hd)
      have hlower : lowerChar c = c := by
        have h5 := mem_stripList h3
        rcases List.mem_map.mp h5 with ⟨a, _, rfl⟩
        exact lowerChar_idem a
      exact ⟨h2, hw, hlower⟩
  have hnows : ∀ c ∈ make_slug x, isSpaceChar c = false :=
    fun c hc => (hchar c hc).1
  refine ⟨fun c hc => ⟨(hchar c hc).1, (hchar c hc).2.1⟩, ?_⟩
  have hmap : List.map lowerChar (make_slug x) = make_slug x :=
    (List.map_congr_left (fun a ha => (hchar a ha).2.2)).trans (List.map_id _)
  have hstrip : stripList (make_slug x) = make_slug x :=
    stripList_eq_self _ hnows
  have hfilter : List.filter slugKeep (make_slug x) = make_slug x := by
    refine List.filter_eq_self.mpr (fun a ha => ?_)
    rcases (hchar a ha).2.1 with h | h | rfl
    · simp [slugKeep, h]
    · simp [slugKeep, h]
    · simp [slugKeep]
  show collapseAux '-' false
      (List.filter slugKeep (stripList (List.map lowerChar (make_slug x)))) =
    make_slug x
  rw [hmap, hstrip, hfilter]
  exact collapseAux_eq_self '-' (make_slug x) false hnows

/-- Witness for C7 at `"Hello, World!  테스트"` (slug `"hello-world-테스트"`),
with the character facts instantiated at its member `'h'`. -/
theorem make_slug_wellformed_idem_witness :
    (isSpaceChar 'h' = false ∧
      (isWordChar 'h' = true ∨ isHangulSyl 'h' = true ∨ 'h' = '-')) ∧
    make_slug (make_slug (toL "Hello, World!  테스트")) =
      make_slug (toL "Hello, World!  테스트") :=
  ⟨(make_slug_wellformed_idem (toL "Hello, World!  테스트")).1 'h' (by decide),
   (make_slug_wellformed_idem (toL "Hello, World!  테스트")).2⟩

/-! ### C6: idempotence of the focus-keyword extractor -/

theorem replaceAllAux_of_not_sub (pat : List Char) :
    ∀ (fuel : Nat) (s : List Char), hasSubstring s pat = false →
      replaceAllAux pat fuel s = s
  | 0, s, _ => rfl
  | _ + 1, [], _ => rfl
  | fuel + 1, c :: rest, h => by
    rcases hasSubstring_eq_false_of_cons h with ⟨hp, hr⟩
    simp only [replaceAllAux]
    rw [if_neg, replaceAllAux_of_not_sub pat fuel rest hr]
    rintro ⟨_, hpre⟩
    rw [hp] at hpre
    exact Bool.false_ne_true hpre

theorem replaceAll_of_not_sub (pat s : List Char)
    (h : hasSubstring s pat = false) : replaceAll pat s = s :=
  replaceAllAux_of_not_sub pat s.length s h

theorem foldl_replaceAll_of_free :
    ∀ (ps : List (List Char)) (s : List Char),
      (∀ p ∈ ps, hasSubstring s p = false) →
      ps.foldl (fun acc p => replaceAll p acc) s = s
  | [], _, _ => rfl
  | p :: ps, s, h => by
    simp only [List.foldl_cons]
    rw [replaceAll_of_not_sub p s (h p (List.mem_cons_self _ _)),
      foldl_replaceAll_of_free ps s (fun q hq => h q (List.mem_cons_of_mem _ hq))]

theorem startsWithWs_collapseAux_true :
    ∀ s : List Char, startsWithWs (collapseAux ' ' true s) = false
  | [] => rfl
  | c :: rest => by
    by_cases hc : isSpaceChar c = true
    · simp only [collapseAux, hc, if_true]
      exact startsWithWs_collapseAux_true rest
    · have hc' : isSpaceChar c = false := by simpa using hc
      simp only [collapseAux, hc', Bool.false_eq_true, if_false, startsWithWs]

theorem normOk_collapseAux :
    ∀ (s : List Char) (b : Bool), normOk (collapseAux ' ' b s)
  | [], _ => trivial
  | c :: rest, b => by
    by_cases hc : isSpaceChar c = true
    · cases b with
      | true =>
        simp only [collapseAux, hc, if_true]
        exact normOk_collapseAux rest true
      | false =>
        simp only [collapseAux, hc, if_true, Bool.false_eq_true, if_false]
        exact ⟨fun _ => ⟨rfl, startsWithWs_collapseAux_true rest⟩,
          normOk_collapseAux rest true⟩
    · have hc' : isSpaceChar c = false := by simpa using hc
      simp only [collapseAux, hc', Bool.false_eq_true, if_false]
      exact ⟨fun hcc => absurd hcc (by simp [hc']), normOk_collapseAux rest false⟩

theorem collapseAux_of_normOk :
    ∀ s : List Char, normOk s →
      collapseAux ' ' false s = s ∧
      (startsWithWs s = false → collapseAux ' ' true s = s)
  | [], _ => ⟨rfl, fun _ => rfl⟩
  | c :: rest, h => by
    obtain ⟨hc, hrest⟩ := h
    by_cases hws : isSpaceChar c = true
    · obtain ⟨rfl, hr0⟩ := hc hws
      constructor
      · simp only [collapseAux, hws, if_true, Bool.false_eq_true, if_false]
        rw [(collapseAux_of_normOk rest hrest).2 hr0]
      · intro hsw
        rw [show startsWithWs (' ' :: rest) = true from rfl] at hsw
        exact absurd hsw (by decide)
    · have hws' : isSpaceChar c = false := by simpa using hws
      have ih := (collapseAux_of_normOk rest hrest).1
      constructor
      · simp only [collapseAux, hws', Bool.false_eq_true, if_false]
        rw [ih]
      · intro _
        simp only [collapseAux, hws', Bool.false_eq_true, if_false, if_true]
        rw [ih]

theorem normOk_dropWhile {p : Char → Bool} :
    ∀ s : List Char, normOk s → normOk (s.dropWhile p)
  | [], h => h
  | c :: rest, h => by
    by_cases hc : p c = true
    · rw [List.dropWhile_cons, if_pos hc]
      exact normOk_dropWhile rest h.2
    · rw [List.dropWhile_cons, if_neg (by simp [hc])]
      exact h

theorem startsWithWs_take :
    ∀ (n : Nat) (s : List Char), startsWithWs (s.take n) = true →
      startsWithWs s = true
  | 0, s, h => by simp [startsWithWs] at h
  | _ + 1, [], h => h
  | n + 1, c :: rest, h => by
    rw [List.take_succ_cons] at h
    exact h

theorem normOk_take : ∀ (n : Nat) (s : List Char), normOk s → normOk (s.take n)
  | 0, _, _ => trivial
  | _ + 1, [], h => h
  | n + 1, c :: rest, h => by
    rw [List.take_succ_cons]
    refine ⟨fun hws => ?_, normOk_take n rest h.2⟩
    obtain ⟨rfl, hr⟩ := h.1 hws
    refine ⟨rfl, ?_⟩
    cases hsw : startsWithWs (rest.take n) with
    | false => rfl
    | true => exact absurd (startsWithWs_take n rest hsw) (by simp [hr])

theorem dropWhile_eq_drop (p : Char → Bool) :
    ∀ s : List Char, ∃ n, s.dropWhile p = s.drop n
  | [] => ⟨0, rfl⟩
  | c :: rest => by
    by_cases hc : p c = true
    · obtain ⟨n, hn⟩ := dropWhile_eq_drop p rest
      refine ⟨n + 1, ?_⟩
      rw [List.dropWhile_cons, if_pos hc, List.drop_succ_cons]
      exact hn
    · exact ⟨0, by rw [List.dropWhile_cons, if_neg (by simp [hc])]; rfl⟩

theorem rev_dropWhile_rev_eq_take (p : Char → Bool) (s : List Char) :
    ∃ n, (s.reverse.dropWhile p).reverse = s.take n := by
  obtain ⟨k, hk⟩ := dropWhile_eq_drop p s.reverse
  refine ⟨s.length - k, ?_⟩
  rw [hk, List.drop_reverse, List.reverse_reverse]

theorem startsWithWs_dropWhile :
    ∀ s : List Char, startsWithWs (s.dropWhile isSpaceChar) = false
  | [] => rfl
  | c :: rest => by
    by_cases hc : isSpaceChar c = true
    · rw [List.dropWhile_cons, if_pos hc]
      exact startsWithWs_dropWhile rest
    · have hc' : isSpaceChar c = false := by simpa using hc
      rw [List.dropWhile_cons, if_neg (by simp [hc'])]
      exact hc'

theorem dropWhile_of_not_startsWithWs {s : List Char}
    (h : startsWithWs s = false) : s.dropWhile isSpaceChar = s := by
  cases s with
  | nil => rfl
  | cons c rest =>
    rw [List.dropWhile_cons, if_neg]
    simp only [startsWithWs] at h
    simp [h]

/-- Stripping and collapsing again after a collapse-then-strip pass changes
nothing: the output of `stripList ∘ collapseAux ' ' false` is a fixed point
of both passes. -/
theorem strip_collapse_of_normOk (y : List Char) (h : normOk y) :
    stripList (collapseAux ' ' false (stripList y)) = stripList y := by
  have hy1head : startsWithWs (y.dropWhile isSpaceChar) = false :=
    startsWithWs_dropWhile y
  have hnormy1 : normOk (y.dropWhile isSpaceChar) := normOk_dropWhile y h
  obtain ⟨n, hn⟩ := rev_dropWhile_rev_eq_take isSpaceChar (y.dropWhile isSpaceChar)
  have hr_take : stripList y = (y.dropWhile isSpaceChar).take n := hn
  have hnormr : normOk (stripList y) := by
    rw [hr_take]
    exact normOk_take n _ hnormy1
  have hrhead : startsWithWs (stripList y) = false := by
    cases hsw : startsWithWs (stripList y) with
    | false => rfl
    | true =>
      rw [hr_take] at hsw
      exact absurd (startsWithWs_take n _ hsw) (by simp [hy1head])
  have hrrev : startsWithWs (stripList y).reverse = false := by
    show startsWithWs
      (((y.dropWhile isSpaceChar).reverse.dropWhile isSpaceChar).reverse).reverse = false
    rw [List.reverse_reverse]
    exact startsWithWs_dropWhile _
  have hcol : collapseAux ' ' false (stripList y) = stripList y :=
    (collapseAux_of_normOk _ hnormr).1
  have hstrip2 : stripList (stripList y) = stripList y := by
    show (((stripList y).dropWhile isSpaceChar).reverse.dropWhile isSpaceChar).reverse =
      stripList y
    rw [dropWhile_of_not_startsWithWs hrhead, dropWhile_of_not_startsWithWs hrrev,
      List.reverse_reverse]
  rw [hcol, hstrip2]

/-- The cleanup pipeline leaves no `[|,\-~:?!]` punctuation in its output. -/
theorem cleanup_no_punct (t : List Char) :
    ∀ c ∈ cleanupKeyword t, isPunctK c = false := by
  intro c hc
  have h1 := mem_stripList hc
  rcases mem_collapseAux ' ' _ false c h1 with rfl | ⟨h2, _⟩
  · decide
  · have := (List.mem_filter.mp h2).2
    simpa using this

/-- C6 (amended): `extract_focus_keyword` is idempotent on every title whose
extracted keyword is itself free of filler patterns (no `\d+\s*가지`
occurrence and no fragment of the ordered removal list occurs in it). -/
theorem extract_focus_keyword_idem (t : List Char)
    (h : fillerFree (extract_focus_keyword t)) :
    extract_focus_keyword (extract_focus_keyword t) = extract_focus_keyword t := by
  by_cases hk : cleanupKeyword t = []
  · have he : extract_focus_keyword t = t := by simp [extract_focus_keyword, hk]
    rw [he]
    exact he
  · have he : extract_focus_keyword t = cleanupKeyword t := by
      simp [extract_focus_keyword, hk]
    rw [he] at h ⊢
    have hstep : cleanupKeyword (cleanupKeyword t) =
        stripList (collapseAux ' ' false (cleanupKeyword t)) := by
      show stripList (collapseAux ' ' false
        (List.filter (fun c => !(isPunctK c))
          (removePatterns.foldl (fun acc p => replaceAll p acc)
            (removeDigitGaji (cleanupKeyword t))))) = _
      rw [h.1, foldl_replaceAll_of_free removePatterns _ h.2,
        List.filter_eq_self.mpr (fun a ha => by simp [cleanup_no_punct t a ha])]
    have hstable : stripList (collapseAux ' ' false (cleanupKeyword t)) =
        cleanupKeyword t := by
      unfold cleanupKeyword
      generalize (List.filter (fun c => !(isPunctK c))
        (removePatterns.foldl (fun acc p => replaceAll p acc)
          (removeDigitGaji t))) = X
      exact strip_collapse_of_normOk _ (normOk_collapseAux _ false)
    have hfinal : cleanupKeyword (cleanupKeyword t) = cleanupKeyword t :=
      hstep.trans hstable
    simp [extract_focus_keyword, hfinal, hk]

/-- Witness for C6 at the title `"계란"`, whose extracted keyword (itself
`"계란"`) is free of filler patterns. -/
theorem extract_focus_keyword_idem_witness :
    fillerFree (extract_focus_keyword (toL "계란")) ∧
    extract_focus_keyword (extract_focus_keyword (toL "계란")) =
      extract_focus_keyword (toL "계란") := by
  have hval : extract_focus_keyword (toL "계란") = toL "계란" := by decide
  have hff : fillerFree (extract_focus_keyword (toL "계란")) := by
    rw [hval]
    decide
  exact ⟨hff, extract_focus_keyword_idem (toL "계란") hff⟩

/-- Counterexample for C6 as stated: the title `"상-식 계란"` is free of
filler patterns (the hyphen breaks `"상식"`), but punctuation removal
*creates* the fragment: `extract` maps it to `"상식 계란"`, and a second
`extract` maps that to `"계란"`, so the extractor is not idempotent on it. -/
theorem extract_idem_claim_cx :
    fillerFree (toL "상-식 계란") ∧
    extract_focus_keyword (extract_focus_keyword (toL "상-식 계란")) ≠
      extract_focus_keyword (toL "상-식 계란") := by
  have h1 : extract_focus_keyword (toL "상-식 계란") = toL "상식 계란" := by decide
  refine ⟨by decide, ?_⟩
  rw [h1]
  decide
